import Mathlib

/-!
# Verification of the generic DXF table layer (`ezdxf/table.py`)

Shallow embedding of the table registry from `src/ezdxf/table.py`:
tag model, tag grouping, extended tags, and the `Table` / `ViewportTable`
operations (`create`, `get`, `remove`, `write`, construction from tags).

The collaborators that `table.py` consumes — the tag classes
(`DXFTag`, `Tags`, `ExtendedTags`, `TagGroups` from `tags.py`), the handle
allocator, the entity database and the entity factory — are not part of the
given sources; they are modelled from the specification (its §2, §4.1, §4.2
and §6), as marked on each such definition.

Python's in-place state mutation is embedded as explicit state passing: every
operation takes a `TableState` and returns the successor state; exceptions
become `Except` / error values, with the error taxonomy of the specification
(§7) naming the distinct raise sites of the code.
-/

namespace EzDxf

/-- A tag value: the code-determined payload of a tag.  The specification
treats the value as an opaque typed payload with equality; string and
integer payloads are the ones the table layer reads and writes. -/
inductive TagValue where
  | str (s : String)
  | int (n : Int)
deriving DecidableEq, Repr

/-- Render a tag value as the string the table layer sees
(table names and entry names are string-valued tags). -/
def TagValue.toStr : TagValue → String
  | .str s => s
  | .int n => toString n

/-- A single DXF tag: a (group code, value) pair (`DXFTag` in the source). -/
structure DXFTag where
  code : Int
  value : TagValue
deriving DecidableEq, Repr

/-- Modelled from the spec: `Tags.update` replaces the value of the first
tag with the given group code, preserving its position; `none` when the
code is absent (the FieldNotFound condition of §4.2). -/
def tagsUpdate (code : Int) (v : TagValue) : List DXFTag → Option (List DXFTag)
  | [] => none
  | t :: rest =>
    if t.code = code then some (⟨code, v⟩ :: rest)
    else (tagsUpdate code v rest).map (t :: ·)

/-- Tags of the list before the first tag with group code `c`. -/
def takeUntilCode (c : Int) : List DXFTag → List DXFTag
  | [] => []
  | t :: rest => if t.code = c then [] else t :: takeUntilCode c rest

/-- The remaining tags from the first tag with group code `c` on. -/
def dropUntilCode (c : Int) : List DXFTag → List DXFTag
  | [] => []
  | t :: rest => if t.code = c then t :: rest else dropUntilCode c rest

/-- The scan of the Tag Grouper, driven by a fuel counter so that the
recursion is structural; a fuel of the list's length is always enough,
since the remainder shrinks at every step. -/
def tagGroupsFuel : Nat → List DXFTag → List (List DXFTag)
  | 0, _ => []
  | _ + 1, [] => []
  | fuel + 1, t :: rest =>
    if t.code = 0 then
      (t :: takeUntilCode 0 rest) :: tagGroupsFuel fuel (dropUntilCode 0 rest)
    else
      tagGroupsFuel fuel rest

/-- Modelled from the spec (§4.1 Tag Grouper): partition a flat tag sequence
into groups, each introduced by a marker tag of group code 0; tags preceding
the first marker belong to no group.  Single left-to-right pass. -/
def tagGroups (l : List DXFTag) : List (List DXFTag) :=
  tagGroupsFuel l.length l

/-- The name of a tag group: the value of its first (marker) tag. -/
def groupName (g : List DXFTag) : String :=
  (g.headD ⟨0, .str ""⟩).value.toStr

/-- Extended tags (`ExtendedTags` in the source): a tag record split into a
common portion and named subclass sections.  Modelled from the spec (§3,
§4.2); subclass bodies are stored without their marker tags. -/
structure XTags where
  common : List DXFTag
  subclasses : List (String × List DXFTag)
deriving DecidableEq, Repr

/-- The subclass-splitting scan, driven by a fuel counter so that the
recursion is structural; a fuel of the list's length is always enough. -/
def splitSubclassesFuel : Nat → List DXFTag → List (String × List DXFTag)
  | 0, _ => []
  | _ + 1, [] => []
  | fuel + 1, t :: rest =>
    if t.code = 100 then
      (t.value.toStr, takeUntilCode 100 rest)
        :: splitSubclassesFuel fuel (dropUntilCode 100 rest)
    else
      splitSubclassesFuel fuel rest

/-- Modelled from the spec (§4.2): split the subclass-marked part of a tag
record at each subclass marker tag (group code 100); the marker's value
names the section, the following tags up to the next marker form its body. -/
def splitSubclasses (l : List DXFTag) : List (String × List DXFTag) :=
  splitSubclassesFuel l.length l

/-- Modelled from the spec (§4.2): build extended tags from a raw tag
record — tags before the first subclass marker (group code 100) form
`common`, the rest splits into named subclass sections. -/
def XTags.ofTags (tags : List DXFTag) : XTags :=
  { common := takeUntilCode 100 tags
    subclasses := splitSubclasses (dropUntilCode 100 tags) }

/-- The flat tag sequence of an extended-tag record: `common`, then each
subclass with its reinstated marker tag (§3 reconstruction invariant). -/
def XTags.flatten (x : XTags) : List DXFTag :=
  x.common ++ (x.subclasses.map fun p => ⟨100, .str p.1⟩ :: p.2).flatten

/-- Modelled from the spec (§4.2): update a field located at top level
(the `common` scope) of an extended-tag record. -/
def XTags.update (x : XTags) (code : Int) (v : TagValue) : Option XTags :=
  (tagsUpdate code v x.common).map fun c => { x with common := c }

/-- Modelled from the spec (§4.2): update a field located inside the named
subclass section; fails when the subclass or the field is absent. -/
def XTags.subclassUpdate (x : XTags) (name : String) (code : Int) (v : TagValue) :
    Option XTags :=
  match x.subclasses.find? (·.1 = name) with
  | none => none
  | some p =>
    (tagsUpdate code v p.2).map fun body =>
      { x with subclasses := x.subclasses.map fun q => if q.1 = name then (name, body) else q }

/-- The entity database, modelled from the spec (§6): a map from handle to
stored tag representation, embedded as an association list. -/
abbrev EntityDB := List (Nat × XTags)

/-- Entity Database `get`: the record stored under a handle, if any. -/
def dbGet (db : EntityDB) (h : Nat) : Option XTags :=
  ((db : List (Nat × XTags)).find? (·.1 = h)).map (·.2)

/-- Entity Database `set`: store a record under a handle, replacing any
previous record with that handle. -/
def dbSet (db : EntityDB) (h : Nat) (x : XTags) : EntityDB :=
  (h, x) :: (db : List (Nat × XTags)).filter (¬ ·.1 = h)

/-- Entity Database `delete`: drop the record stored under a handle. -/
def dbDel (db : EntityDB) (h : Nat) : EntityDB :=
  (db : List (Nat × XTags)).filter (¬ ·.1 = h)

/-- A caller-supplied attributes mapping (the `attribs` dict of `create`),
embedded as an insertion-ordered association list. -/
abbrev AttribDict := List (String × String)

/-- Dict lookup. -/
def dictGet (d : AttribDict) (k : String) : Option String :=
  ((d : List (String × String)).find? (·.1 = k)).map (·.2)

/-- Dict assignment `d[k] = v`: in-place value replacement when the key
exists (position preserved), append otherwise. -/
def dictSet (d : AttribDict) (k v : String) : AttribDict :=
  if (d : List (String × String)).any (·.1 = k) then
    (d : List (String × String)).map fun p => if p.1 = k then (k, v) else p
  else
    (d : List (String × String)) ++ [(k, v)]

/-- A typed entity view over a stored tag record, as produced by the entity
factory (modelled from the spec §6: the factory wraps a tag representation
into a view exposing the entry's handle and logical name). -/
structure Entity where
  handle : Nat
  xtags : XTags
deriving DecidableEq, Repr

/-- The logical name of a stored tag record: the value of its first
name tag (group code 2). -/
def xtagsName (x : XTags) : String :=
  match x.flatten.find? (·.code = 2) with
  | some ⟨_, .str s⟩ => s
  | _ => ""

/-- The logical name of an entity view. -/
def Entity.name (e : Entity) : String := xtagsName e.xtags

/-- Modelled from the spec (§6 Entity Factory): `new_entity(kind, handle,
attributes)` constructs the tag representation of a fresh entry of the
given kind, carrying its handle (code 5) and its `name` attribute (code 2). -/
def new_entity (kind : String) (handle : Nat) (attribs : AttribDict) : Entity :=
  { handle := handle
    xtags :=
      { common :=
          [⟨0, .str kind⟩, ⟨5, .int handle⟩,
           ⟨2, .str ((dictGet attribs "name").getD "")⟩]
        subclasses := [] } }

/-- Code-point-wise lexicographic order on character lists: the order the
source's string comparison `dxfversion > 'AC1009'` uses (first differing
code point decides; a proper prefix precedes the longer string). -/
def charListLt : List Char → List Char → Bool
  | [], [] => false
  | [], _ :: _ => true
  | _ :: _, [] => false
  | a :: as, b :: bs =>
    if a.toNat < b.toNat then true
    else if b.toNat < a.toNat then false
    else charListLt as bs

/-- String greater-than, as the source's version comparison evaluates it:
lexicographic by code point. -/
def strGt (a b : String) : Bool := charListLt b.data a.data

/-- The error taxonomy of the specification (§7) plus the index error a
too-short input raises before any structural check runs. -/
inductive TableError where
  | DuplicateNameError
  | NotFoundError
  | DBKeyError
  | StructureError
  | FieldNotFoundError
  | IndexError
deriving DecidableEq, Repr

/-- Decidable equality for `Except` results, so that concrete runs of the
fallible operations can be checked by evaluation. -/
instance exceptDecEq {e a : Type} [DecidableEq e] [DecidableEq a] :
    DecidableEq (Except e a) := fun x y =>
  match x, y with
  | .ok v, .ok w =>
    if h : v = w then .isTrue (by rw [h]) else .isFalse (by intro hh; cases hh; exact h rfl)
  | .ok _, .error _ => .isFalse (by intro hh; cases hh)
  | .error _, .ok _ => .isFalse (by intro hh; cases hh)
  | .error v, .error w =>
    if h : v = w then .isTrue (by rw [h]) else .isFalse (by intro hh; cases hh; exact h rfl)

/-- The state of one table together with the document facilities it uses:
its name, the document's format version, the header record, the ordered
member handle list (`_table_entries`), the shared entity database, and the
handle allocator's counter (monotonic issuance, spec §3/§6). -/
structure TableState where
  dxfname : String
  dxfversion : String
  header : XTags
  entries : List Nat
  db : EntityDB
  nextHandle : Nat
deriving DecidableEq, Repr

/-- `Table.get_table_entry_wrapper`: resolve one member handle to a typed
entity view through the entity database and factory. -/
def get_table_entry_wrapper (t : TableState) (h : Nat) : Option Entity :=
  (dbGet t.db h).map (Entity.mk h)

/-- The linear scan of `Table.get_entry` over a member-handle list: resolve
each handle in order and return the first entity whose name matches; a
missing database record surfaces as `DBKeyError`, exhaustion as
`NotFoundError`. -/
def getEntryFrom (db : EntityDB) (name : String) : List Nat → Except TableError Entity
  | [] => .error .NotFoundError
  | h :: hs =>
    match dbGet db h with
    | none => .error .DBKeyError
    | some x =>
      if xtagsName x = name then .ok ⟨h, x⟩ else getEntryFrom db name hs

/-- `Table.get_entry` / public `get`: first member (in insertion order)
whose logical name equals `name`. -/
def get_entry (t : TableState) (name : String) : Except TableError Entity :=
  getEntryFrom t.db name t.entries

/-- `Table.entry_exists` / `__contains__`: probe `get_entry`, catching only
its not-found failure (the `ValueError` the source catches); a database
key failure propagates. -/
def entry_exists (t : TableState) (name : String) : Except TableError Bool :=
  match get_entry t name with
  | .ok _ => .ok true
  | .error .NotFoundError => .ok false
  | .error e => .error e

/-- `Table._add_entry` for a factory-built entity: register its tag record
in the entity database under its handle and append the handle to the
member list. -/
def add_entry (t : TableState) (e : Entity) : TableState :=
  { t with db := dbSet t.db e.handle e.xtags, entries := t.entries ++ [e.handle] }

/-- `Table.new_entry`: allocate a fresh handle, build the entity via the
factory, and add it; performs no name check. -/
def new_entry (t : TableState) (attribs : AttribDict) : Entity × TableState :=
  let handle := t.nextHandle
  let e := new_entity t.dxfname handle attribs
  (e, add_entry { t with nextHandle := handle + 1 } e)

/-- `Table.create`: fail with the duplicate-name error when `name` already
names a member; otherwise set `attribs` `name` entry in place and delegate
to `new_entry`.  Returns the result (or error), the caller's attributes
mapping as the call leaves it, and the successor state. -/
def create (t : TableState) (name : String) (attribs : AttribDict) :
    Except TableError Entity × AttribDict × TableState :=
  match entry_exists t name with
  | .error e => (.error e, attribs, t)
  | .ok true => (.error .DuplicateNameError, attribs, t)
  | .ok false =>
    let attribs := dictSet attribs "name" name
    let (e, t') := new_entry t attribs
    (.ok e, attribs, t')

/-- `ViewportTable.create`: like `Table.create` but with no duplicate-name
check — it always delegates to `new_entry`. -/
def viewport_create (t : TableState) (name : String) (attribs : AttribDict) :
    Entity × AttribDict × TableState :=
  let attribs := dictSet attribs "name" name
  let (e, t') := new_entry t attribs
  (e, attribs, t')

/-- `Table.remove_entry` / public `remove`: look the entry up by name, then
drop the first occurrence of its handle from the member list and delete its
record from the entity database. -/
def remove_entry (t : TableState) (name : String) :
    Except TableError Unit × TableState :=
  match get_entry t name with
  | .error e => (.error e, t)
  | .ok entry =>
    (.ok (),
     { t with entries := t.entries.erase entry.handle
              db := dbDel t.db entry.handle })

/-- `Table._update_meta_data`: patch the header's entry-count field (group
code 70) to the current member count — inside the `AcDbSymbolTable` subclass
for format versions above `AC1009`, at top level otherwise. -/
def update_meta_data (t : TableState) : Option TableState :=
  if strGt t.dxfversion "AC1009" then
    (t.header.subclassUpdate "AcDbSymbolTable" 70 (.int t.entries.length)).map
      fun h => { t with header := h }
  else
    (t.header.update 70 (.int t.entries.length)).map fun h => { t with header := h }

/-- The stored tag records of all members in insertion order
(`Table._iter_table_entries_as_tags`), flattened; `none` when any member
handle has no database record. -/
def gatherMemberTags (db : EntityDB) : List Nat → Option (List DXFTag)
  | [] => some []
  | h :: hs =>
    match dbGet db h with
    | none => none
    | some x => (gatherMemberTags db hs).map (x.flatten ++ ·)

/-- `Table.write`: emit the opening `TABLE` marker, the header record (its
count field patched by `_update_meta_data`), each member's stored tags in
member order, and the closing `ENDTAB` marker.  The output stream is
embedded as the list of tags written; the successor state carries the
patched header. -/
def Table.write (t : TableState) : Option (List DXFTag × TableState) :=
  match update_meta_data t with
  | none => none
  | some t' =>
    (gatherMemberTags t'.db t'.entries).map fun body =>
      (⟨0, .str "TABLE"⟩ :: (t'.header.flatten ++ body ++ [⟨0, .str "ENDTAB"⟩]), t')

/-- The `Tags` branch of `Table._add_entry`, used while building a table
from input tags: obtain a handle for the raw entry record and register it.
Modelled from the spec for the handle part (§3/§6: handles are issued by
the allocator, monotonically unique; the spec does not describe reading
stored handles out of input tags). -/
def add_entry_tags (t : TableState) (g : List DXFTag) : TableState :=
  let handle := t.nextHandle
  { t with nextHandle := handle + 1
           db := dbSet t.db handle (XTags.ofTags g)
           entries := t.entries ++ [handle] }

/-- Table construction (`Table.__init__` + `_build_table_entries`): read the
table's name from the second input tag, group the input, check the `TABLE` /
`ENDTAB` sentinels (their violation is the spec's StructureError), build the
header from the first group less its marker, and add every interior group
as an entry. -/
def buildTable (dxfversion : String) (db0 : EntityDB) (nextHandle : Nat)
    (tags : List DXFTag) : Except TableError TableState :=
  match tags.get? 1 with
  | none => .error .IndexError
  | some t1 =>
    let groups := tagGroups tags
    match groups.head? with
    | none => .error .IndexError
    | some g0 =>
      if groupName g0 = "TABLE" ∧ groupName (groups.getLastD []) = "ENDTAB" then
        let init : TableState :=
          { dxfname := t1.value.toStr
            dxfversion := dxfversion
            header := XTags.ofTags (g0.drop 1)
            entries := []
            db := db0
            nextHandle := nextHandle }
        .ok (((groups.drop 1).dropLast).foldl add_entry_tags init)
      else
        .error .StructureError

/-- Member count (`__len__` / `count()`). -/
def Table.count (t : TableState) : Nat := t.entries.length

/-- Whether the record stored under handle `h` is live and named `name`. -/
def liveNameIs (db : EntityDB) (name : String) (h : Nat) : Bool :=
  (dbGet db h).map xtagsName = some name

/-- Whether some member of the table is named `name` (the semantic
counterpart of `entry_exists` on a consistent table). -/
def memberExists (t : TableState) (name : String) : Bool :=
  t.entries.any (liveNameIs t.db name)

/-- The logical names of the table's live members, in insertion order. -/
def memberNames (t : TableState) : List String :=
  t.entries.filterMap fun h => (dbGet t.db h).map xtagsName

/-- Every member handle has a live record in the entity database
(the database-consistency invariant of spec §3). -/
abbrev allLive (t : TableState) : Prop :=
  ∀ h ∈ t.entries, (dbGet t.db h).isSome

/-- The table's internal consistency invariant: every member handle is
live in the entity database, member handles are pairwise distinct, and all
member handles precede the allocator's counter (monotonic issuance). -/
abbrev TableInv (t : TableState) : Prop :=
  allLive t ∧ t.entries.Nodup ∧ ∀ h ∈ t.entries, h < t.nextHandle

/-! ### Concrete sample states (used by the witness theorems) -/

/-- A concrete table-section tag stream: `TABLE` marker, header naming the
`LAYER` table with a stale count field, one `LAYER` entry named `0`, and
the `ENDTAB` marker. -/
def sampleStream : List DXFTag :=
  [⟨0, .str "TABLE"⟩, ⟨2, .str "LAYER"⟩, ⟨70, .int 99⟩,
   ⟨0, .str "LAYER"⟩, ⟨2, .str "0"⟩, ⟨70, .int 0⟩,
   ⟨0, .str "ENDTAB"⟩]

/-- The stored record of a layer entry named `0`. -/
def layer0 : XTags :=
  { common := [⟨0, .str "LAYER"⟩, ⟨2, .str "0"⟩, ⟨70, .int 0⟩], subclasses := [] }

/-- A concrete legacy-format table with one member named `0`. -/
def sampleT : TableState :=
  { dxfname := "LAYER"
    dxfversion := "AC1009"
    header := { common := [⟨2, .str "LAYER"⟩, ⟨70, .int 99⟩], subclasses := [] }
    entries := [10]
    db := [(10, layer0)]
    nextHandle := 11 }

/-- A second stored record also named `0` (a duplicate-name member). -/
def layer0b : XTags :=
  { common := [⟨0, .str "LAYER"⟩, ⟨2, .str "0"⟩, ⟨70, .int 4⟩], subclasses := [] }

/-- A concrete table holding two members that share the name `0`
(the relaxed-uniqueness situation of the viewport table). -/
def dupT : TableState :=
  { dxfname := "VPORT"
    dxfversion := "AC1009"
    header := { common := [⟨2, .str "VPORT"⟩, ⟨70, .int 0⟩], subclasses := [] }
    entries := [10, 11]
    db := [(10, layer0), (11, layer0b)]
    nextHandle := 12 }

/-- A concrete modern-format table with an empty member list and a header
whose count field sits inside the `AcDbSymbolTable` subclass. -/
def modernT : TableState :=
  { dxfname := "LAYER"
    dxfversion := "AC1015"
    header := { common := [⟨2, .str "LAYER"⟩]
                subclasses := [("AcDbSymbolTable", [⟨70, .int 99⟩])] }
    entries := []
    db := []
    nextHandle := 0 }

/-- The legacy sample table after a `write`: its header count field patched
to the member count 1. -/
def sampleTW : TableState :=
  { sampleT with header := { common := [⟨2, .str "LAYER"⟩, ⟨70, .int 1⟩], subclasses := [] } }

/-- The tag stream `write` emits for `sampleT`. -/
def sampleOut : List DXFTag :=
  [⟨0, .str "TABLE"⟩, ⟨2, .str "LAYER"⟩, ⟨70, .int 1⟩,
   ⟨0, .str "LAYER"⟩, ⟨2, .str "0"⟩, ⟨70, .int 0⟩,
   ⟨0, .str "ENDTAB"⟩]

/-- The modern sample table after a `write`: its subclass count field
patched to the member count 0. -/
def modernTW : TableState :=
  { modernT with header := { common := [⟨2, .str "LAYER"⟩]
                             subclasses := [("AcDbSymbolTable", [⟨70, .int 0⟩])] } }

/-- The tag stream `write` emits for `modernT`. -/
def modernOut : List DXFTag :=
  [⟨0, .str "TABLE"⟩, ⟨2, .str "LAYER"⟩, ⟨100, .str "AcDbSymbolTable"⟩,
   ⟨70, .int 0⟩, ⟨0, .str "ENDTAB"⟩]

/-- The record the factory builds for a layer entry named `1` under
handle 11. -/
def layer1 : XTags :=
  { common := [⟨0, .str "LAYER"⟩, ⟨5, .int 11⟩, ⟨2, .str "1"⟩], subclasses := [] }

/-- The sample table right after `create("1")`: one fresh member named `1`
appended under handle 11. -/
def sampleT1 : TableState :=
  { dxfname := "LAYER"
    dxfversion := "AC1009"
    header := { common := [⟨2, .str "LAYER"⟩, ⟨70, .int 99⟩], subclasses := [] }
    entries := [10, 11]
    db := [(11, layer1), (10, layer0)]
    nextHandle := 12 }

/-- A malformed table-section stream: opening group `TABLE` but closing
group named `FOO` instead of `ENDTAB`. -/
def badStream : List DXFTag :=
  [⟨0, .str "TABLE"⟩, ⟨2, .str "LAYER"⟩, ⟨0, .str "FOO"⟩]

/-! ## Helper lemmas -/

theorem dbGet_dbSet_self (db : EntityDB) (h : Nat) (x : XTags) :
    dbGet (dbSet db h x) h = some x := by
  simp [dbGet, dbSet]

theorem find?_filter_ne (db : EntityDB) (h h' : Nat) (hne : h' ≠ h) :
    (db.filter (¬ ·.1 = h)).find? (·.1 = h') = db.find? (·.1 = h') := by
  induction db with
  | nil => rfl
  | cons p rest ih =>
    by_cases hp : p.1 = h
    · have hfil : (p :: rest).filter (¬ ·.1 = h) = rest.filter (¬ ·.1 = h) := by
        simp [List.filter_cons, hp]
      have hp' : ¬ p.1 = h' := fun hh => hne (by rw [← hh, hp])
      rw [hfil, ih, List.find?_cons_of_neg _ (by simpa using hp')]
    · have hfil : (p :: rest).filter (¬ ·.1 = h) = p :: rest.filter (¬ ·.1 = h) := by
        simp [List.filter_cons, hp]
      by_cases hp' : p.1 = h'
      · rw [hfil, List.find?_cons_of_pos _ (by simpa using hp'),
            List.find?_cons_of_pos _ (by simpa using hp')]
      · rw [hfil, List.find?_cons_of_neg _ (by simpa using hp'),
            List.find?_cons_of_neg _ (by simpa using hp'), ih]

theorem dbGet_dbSet_ne (db : EntityDB) (h h' : Nat) (x : XTags) (hne : h' ≠ h) :
    dbGet (dbSet db h x) h' = dbGet db h' := by
  simp only [dbGet, dbSet]
  rw [List.find?_cons_of_neg, find?_filter_ne db h h' hne]
  simpa using fun hh => hne hh.symm

theorem dbGet_dbDel_self (db : EntityDB) (h : Nat) :
    dbGet (dbDel db h) h = none := by
  simp only [dbGet, dbDel]
  induction db with
  | nil => rfl
  | cons p rest ih =>
    by_cases hp : p.1 = h
    · have hfil : (p :: rest).filter (¬ ·.1 = h) = rest.filter (¬ ·.1 = h) := by
        simp [List.filter_cons, hp]
      rw [hfil]
      exact ih
    · have hfil : (p :: rest).filter (¬ ·.1 = h) = p :: rest.filter (¬ ·.1 = h) := by
        simp [List.filter_cons, hp]
      rw [hfil, List.find?_cons_of_neg _ (by simpa using hp)]
      exact ih

theorem dbGet_dbDel_ne (db : EntityDB) (h h' : Nat) (hne : h' ≠ h) :
    dbGet (dbDel db h) h' = dbGet db h' := by
  simp only [dbGet, dbDel]
  rw [find?_filter_ne db h h' hne]

theorem liveNameIs_true_iff (db : EntityDB) (name : String) (h : Nat) :
    liveNameIs db name h = true ↔ ∃ x, dbGet db h = some x ∧ xtagsName x = name := by
  unfold liveNameIs
  cases hx : dbGet db h with
  | none => simp
  | some x => simp

theorem getEntryFrom_of_not_any (db : EntityDB) (name : String) (hs : List Nat)
    (hLive : ∀ h ∈ hs, (dbGet db h).isSome)
    (hnone : hs.any (liveNameIs db name) = false) :
    getEntryFrom db name hs = .error .NotFoundError := by
  induction hs with
  | nil => rfl
  | cons h rest ih =>
    obtain ⟨x, hx⟩ := Option.isSome_iff_exists.mp (hLive h (List.mem_cons_self _ _))
    simp only [List.any_cons, Bool.or_eq_false_iff] at hnone
    have hnm : ¬ xtagsName x = name := by
      intro hh
      have : liveNameIs db name h = true :=
        (liveNameIs_true_iff db name h).mpr ⟨x, hx, hh⟩
      rw [hnone.1] at this
      exact Bool.false_ne_true this
    rw [show getEntryFrom db name (h :: rest) =
          (match dbGet db h with
           | none => Except.error TableError.DBKeyError
           | some x =>
             if xtagsName x = name then Except.ok ⟨h, x⟩
             else getEntryFrom db name rest) from rfl,
        hx]
    simp only [if_neg hnm]
    exact ih (fun h' hm => hLive h' (List.mem_cons_of_mem _ hm)) hnone.2

theorem getEntryFrom_of_any (db : EntityDB) (name : String) (hs : List Nat)
    (hLive : ∀ h ∈ hs, (dbGet db h).isSome)
    (hany : hs.any (liveNameIs db name) = true) :
    ∃ e, getEntryFrom db name hs = .ok e := by
  induction hs with
  | nil => simp at hany
  | cons h rest ih =>
    obtain ⟨x, hx⟩ := Option.isSome_iff_exists.mp (hLive h (List.mem_cons_self _ _))
    rw [show getEntryFrom db name (h :: rest) =
          (match dbGet db h with
           | none => Except.error TableError.DBKeyError
           | some x =>
             if xtagsName x = name then Except.ok ⟨h, x⟩
             else getEntryFrom db name rest) from rfl,
        hx]
    by_cases hnm : xtagsName x = name
    · exact ⟨⟨h, x⟩, by simp [if_pos hnm]⟩
    · simp only [if_neg hnm]
      apply ih (fun h' hm => hLive h' (List.mem_cons_of_mem _ hm))
      simp only [List.any_cons, Bool.or_eq_true] at hany
      rcases hany with hh | hrest
      · exfalso
        obtain ⟨x', hx', hn'⟩ := (liveNameIs_true_iff db name h).mp hh
        rw [hx] at hx'
        cases hx'
        exact hnm hn'
      · exact hrest

theorem getEntryFrom_ok_spec (db : EntityDB) (name : String) (hs : List Nat) (e : Entity)
    (hok : getEntryFrom db name hs = .ok e) :
    ∃ pre post, hs = pre ++ e.handle :: post ∧
      dbGet db e.handle = some e.xtags ∧ xtagsName e.xtags = name ∧
      ∀ h ∈ pre, ∃ x, dbGet db h = some x ∧ ¬ xtagsName x = name := by
  induction hs with
  | nil => exact absurd hok (by simp [getEntryFrom])
  | cons h rest ih =>
    rw [show getEntryFrom db name (h :: rest) =
          (match dbGet db h with
           | none => Except.error TableError.DBKeyError
           | some x =>
             if xtagsName x = name then Except.ok ⟨h, x⟩
             else getEntryFrom db name rest) from rfl] at hok
    cases hx : dbGet db h with
    | none => rw [hx] at hok; exact absurd hok (by simp)
    | some x =>
      rw [hx] at hok
      dsimp only at hok
      by_cases hnm : xtagsName x = name
      · rw [if_pos hnm] at hok
        have he : (⟨h, x⟩ : Entity) = e := by
          cases hok
          rfl
        refine ⟨[], rest, by simp [← he], ?_, ?_, by simp⟩
        · rw [← he]
          exact hx
        · rw [← he]
          exact hnm
      · rw [if_neg hnm] at hok
        obtain ⟨pre, post, hsplit, hget, hname, hpre⟩ := ih hok
        refine ⟨h :: pre, post, by simp [hsplit], hget, hname, ?_⟩
        intro h' hm
        rcases List.mem_cons.mp hm with rfl | hm'
        · exact ⟨x, hx, hnm⟩
        · exact hpre h' hm'

theorem getEntryFrom_cons (db : EntityDB) (name : String) (h : Nat) (hs : List Nat) :
    getEntryFrom db name (h :: hs) =
      match dbGet db h with
      | none => .error .DBKeyError
      | some x =>
        if xtagsName x = name then .ok ⟨h, x⟩ else getEntryFrom db name hs := rfl

theorem getEntryFrom_append_skip (db : EntityDB) (name : String) (l1 l2 : List Nat)
    (hLive : ∀ h ∈ l1, (dbGet db h).isSome)
    (hnone : l1.any (liveNameIs db name) = false) :
    getEntryFrom db name (l1 ++ l2) = getEntryFrom db name l2 := by
  induction l1 with
  | nil => rfl
  | cons h rest ih =>
    obtain ⟨x, hx⟩ := Option.isSome_iff_exists.mp (hLive h (List.mem_cons_self _ _))
    simp only [List.any_cons, Bool.or_eq_false_iff] at hnone
    have hnm : ¬ xtagsName x = name := by
      intro hh
      have hl : liveNameIs db name h = true :=
        (liveNameIs_true_iff db name h).mpr ⟨x, hx, hh⟩
      rw [hnone.1] at hl
      exact Bool.false_ne_true hl
    rw [List.cons_append, getEntryFrom_cons, hx]
    simp only [if_neg hnm]
    exact ih (fun h' hm => hLive h' (List.mem_cons_of_mem _ hm)) hnone.2

theorem entry_exists_eq (t : TableState) (name : String) (hLive : allLive t) :
    entry_exists t name = .ok (memberExists t name) := by
  unfold entry_exists get_entry memberExists
  cases hany : t.entries.any (liveNameIs t.db name) with
  | true =>
    obtain ⟨e, he⟩ := getEntryFrom_of_any t.db name t.entries hLive hany
    rw [he]
  | false =>
    rw [getEntryFrom_of_not_any t.db name t.entries hLive hany]

theorem mem_memberNames_iff (t : TableState) (name : String) :
    name ∈ memberNames t ↔ t.entries.any (liveNameIs t.db name) = true := by
  unfold memberNames
  rw [List.mem_filterMap, List.any_eq_true]
  constructor
  · rintro ⟨h, hm, hf⟩
    exact ⟨h, hm, by simp [liveNameIs, hf]⟩
  · rintro ⟨h, hm, hl⟩
    exact ⟨h, hm, by simpa [liveNameIs] using hl⟩

theorem memberExists_iff (t : TableState) (name : String) :
    memberExists t name = true ↔ name ∈ memberNames t := by
  rw [mem_memberNames_iff]
  rfl

theorem find?_append_of_all_neg {α : Type} (l1 l2 : List α) (p : α → Bool)
    (h : ∀ a ∈ l1, ¬ p a = true) : (l1 ++ l2).find? p = l2.find? p := by
  induction l1 with
  | nil => rfl
  | cons a rest ih =>
    rw [List.cons_append, List.find?_cons_of_neg _ (h a (List.mem_cons_self _ _))]
    exact ih (fun a' ha' => h a' (List.mem_cons_of_mem _ ha'))

theorem dictGet_dictSet (d : AttribDict) (k v : String) :
    dictGet (dictSet d k v) k = some v := by
  unfold dictSet
  by_cases hany : d.any (·.1 = k) = true
  · rw [if_pos hany]
    unfold dictGet
    induction d with
    | nil => simp at hany
    | cons p rest ih =>
      by_cases hp : p.1 = k
      · rw [List.map_cons, if_pos hp, List.find?_cons_of_pos _ (by simp)]
        rfl
      · rw [List.map_cons, if_neg hp, List.find?_cons_of_neg _ (by simpa using hp)]
        apply ih
        rcases List.any_eq_true.mp hany with ⟨a, ha, hpa⟩
        rcases List.mem_cons.mp ha with rfl | ha'
        · exact absurd (by simpa using hpa) hp
        · exact List.any_eq_true.mpr ⟨a, ha', hpa⟩
  · rw [if_neg hany]
    unfold dictGet
    rw [find?_append_of_all_neg _ _ _
      (fun a ha hpa => hany (List.any_eq_true.mpr ⟨a, ha, hpa⟩))]
    simp [List.find?]

theorem new_entity_name (kind : String) (h : Nat) (a : AttribDict) :
    xtagsName (new_entity kind h a).xtags = (dictGet a "name").getD "" := by
  rfl

theorem create_dup_eq (t : TableState) (name : String) (a : AttribDict)
    (hLive : allLive t) (hyes : memberExists t name = true) :
    create t name a = (.error .DuplicateNameError, a, t) := by
  unfold create
  rw [entry_exists_eq t name hLive, hyes]

theorem create_success_eq (t : TableState) (name : String) (a : AttribDict)
    (hLive : allLive t) (hno : memberExists t name = false) :
    create t name a =
      (.ok (new_entity t.dxfname t.nextHandle (dictSet a "name" name)),
       dictSet a "name" name,
       { t with nextHandle := t.nextHandle + 1
                db := dbSet t.db t.nextHandle
                        (new_entity t.dxfname t.nextHandle (dictSet a "name" name)).xtags
                entries := t.entries ++ [t.nextHandle] }) := by
  unfold create
  rw [entry_exists_eq t name hLive, hno]
  rfl

theorem TableInv_add_fresh (t : TableState) (x : XTags) (hInv : TableInv t) :
    TableInv { t with nextHandle := t.nextHandle + 1
                      db := dbSet t.db t.nextHandle x
                      entries := t.entries ++ [t.nextHandle] } := by
  obtain ⟨hLive, hNodup, hBound⟩ := hInv
  refine ⟨?_, ?_, ?_⟩
  · intro h hm
    rcases List.mem_append.mp hm with hm' | hm'
    · rw [dbGet_dbSet_ne _ _ _ _ (fun hh => absurd (hh ▸ hBound h hm') (lt_irrefl _))]
      exact hLive h hm'
    · obtain rfl := List.mem_singleton.mp hm'
      rw [dbGet_dbSet_self]
      rfl
  · rw [List.nodup_append]
    refine ⟨hNodup, List.nodup_singleton _, ?_⟩
    intro a ha hb
    obtain rfl := List.mem_singleton.mp hb
    exact absurd (hBound _ ha) (lt_irrefl _)
  · intro h hm
    rcases List.mem_append.mp hm with hm' | hm'
    · exact Nat.lt_succ_of_lt (hBound h hm')
    · obtain rfl := List.mem_singleton.mp hm'
      exact Nat.lt_succ_self _

theorem memberNames_add_fresh (t : TableState) (x : XTags)
    (hBound : ∀ h ∈ t.entries, h < t.nextHandle) :
    memberNames { t with nextHandle := t.nextHandle + 1
                         db := dbSet t.db t.nextHandle x
                         entries := t.entries ++ [t.nextHandle] }
      = memberNames t ++ [xtagsName x] := by
  unfold memberNames
  rw [List.filterMap_append]
  congr 1
  · apply List.filterMap_congr
    intro h hm
    rw [dbGet_dbSet_ne _ _ _ _ (fun hh => absurd (hh ▸ hBound h hm) (lt_irrefl _))]
  · simp [dbGet_dbSet_self]

theorem remove_entry_ok_eq (t : TableState) (name : String) (e : Entity)
    (hge : get_entry t name = .ok e) :
    remove_entry t name =
      (.ok (), { t with entries := t.entries.erase e.handle
                        db := dbDel t.db e.handle }) := by
  unfold remove_entry
  rw [hge]

theorem TableInv_remove (t : TableState) (name : String) (t' : TableState)
    (hInv : TableInv t) (hrm : remove_entry t name = (.ok (), t')) :
    TableInv t' ∧ ∀ e, get_entry t name = .ok e → dbGet t'.db e.handle = none := by
  obtain ⟨hLive, hNodup, hBound⟩ := hInv
  cases hge : get_entry t name with
  | error err =>
    unfold remove_entry at hrm
    rw [hge] at hrm
    exact absurd (congrArg Prod.fst hrm) (by simp)
  | ok e0 =>
    rw [remove_entry_ok_eq t name e0 hge] at hrm
    have ht' : t' = { t with entries := t.entries.erase e0.handle
                             db := dbDel t.db e0.handle } :=
      (congrArg Prod.snd hrm).symm
    subst ht'
    refine ⟨⟨?_, ?_, ?_⟩, ?_⟩
    · intro h hm
      have hmm := (hNodup.mem_erase_iff).mp hm
      rw [dbGet_dbDel_ne _ _ _ hmm.1]
      exact hLive h hmm.2
    · exact hNodup.erase _
    · intro h hm
      exact hBound h (List.mem_of_mem_erase hm)
    · intro e hge'
      injection hge' with hh
      subst hh
      exact dbGet_dbDel_self t.db e0.handle

theorem TableInv_foldl_add_entry_tags (gs : List (List DXFTag)) (t : TableState)
    (hInv : TableInv t) : TableInv (gs.foldl add_entry_tags t) := by
  induction gs generalizing t with
  | nil => exact hInv
  | cons g rest ih =>
    rw [List.foldl_cons]
    exact ih _ (TableInv_add_fresh t (XTags.ofTags g) hInv)

theorem TableInv_build (v : String) (db0 : EntityDB) (nh : Nat) (tags : List DXFTag)
    (t : TableState) (hok : buildTable v db0 nh tags = .ok t) :
    TableInv t := by
  unfold buildTable at hok
  cases h1 : tags.get? 1 with
  | none =>
    rw [h1] at hok
    exact absurd hok (by simp)
  | some t1 =>
    rw [h1] at hok
    dsimp only at hok
    cases hg : (tagGroups tags).head? with
    | none =>
      rw [hg] at hok
      exact absurd hok (by simp)
    | some g0 =>
      rw [hg] at hok
      dsimp only at hok
      split at hok
      · cases hok
        apply TableInv_foldl_add_entry_tags
        exact ⟨fun h hm => absurd hm (List.not_mem_nil h), List.nodup_nil,
               fun h hm => absurd hm (List.not_mem_nil h)⟩
      · exact absurd hok (by simp)

theorem tagsUpdate_find (code : Int) (v : TagValue) (l l' : List DXFTag)
    (hu : tagsUpdate code v l = some l') :
    l'.find? (·.code = code) = some ⟨code, v⟩ := by
  induction l generalizing l' with
  | nil => exact absurd hu (by simp [tagsUpdate])
  | cons t rest ih =>
    unfold tagsUpdate at hu
    by_cases ht : t.code = code
    · rw [if_pos ht] at hu
      injection hu with hh
      subst hh
      rw [List.find?_cons_of_pos _ (by simp)]
    · rw [if_neg ht] at hu
      cases hrec : tagsUpdate code v rest with
      | none =>
        rw [hrec] at hu
        exact absurd hu (by simp)
      | some r =>
        rw [hrec] at hu
        injection hu with hh
        subst hh
        rw [List.find?_cons_of_neg _ (by simpa using ht)]
        exact ih r hrec

theorem find?_map_update {β : Type} (l : List (String × β)) (name : String)
    (body : β) (p : String × β) (hf : l.find? (·.1 = name) = some p) :
    (l.map fun q => if q.1 = name then (name, body) else q).find? (·.1 = name)
      = some (name, body) := by
  induction l with
  | nil => exact absurd hf (by simp)
  | cons q rest ih =>
    by_cases hq : q.1 = name
    · rw [List.map_cons, if_pos hq, List.find?_cons_of_pos _ (by simp)]
    · rw [List.find?_cons_of_neg _ (by simpa using hq)] at hf
      rw [List.map_cons, if_neg hq, List.find?_cons_of_neg _ (by simpa using hq)]
      exact ih hf

theorem subclassUpdate_find (x x' : XTags) (name : String) (code : Int) (v : TagValue)
    (hu : XTags.subclassUpdate x name code v = some x') :
    ∃ body, x'.subclasses.find? (·.1 = name) = some (name, body) ∧
      body.find? (·.code = code) = some ⟨code, v⟩ := by
  unfold XTags.subclassUpdate at hu
  cases hf : x.subclasses.find? (·.1 = name) with
  | none =>
    rw [hf] at hu
    exact absurd hu (by simp)
  | some p =>
    rw [hf] at hu
    dsimp only at hu
    cases hup : tagsUpdate code v p.2 with
    | none =>
      rw [hup] at hu
      exact absurd hu (by simp)
    | some body =>
      rw [hup] at hu
      injection hu with hh
      subst hh
      exact ⟨body, find?_map_update x.subclasses name body p hf,
             tagsUpdate_find _ _ _ _ hup⟩

theorem update_meta_data_shape (t t' : TableState) (hu : update_meta_data t = some t') :
    ∃ hd, t' = { t with header := hd } := by
  unfold update_meta_data at hu
  by_cases hv : strGt t.dxfversion "AC1009" = true
  · rw [if_pos hv] at hu
    cases hs : t.header.subclassUpdate "AcDbSymbolTable" 70 (.int t.entries.length) with
    | none =>
      rw [hs] at hu
      exact absurd hu (by simp)
    | some hd =>
      rw [hs] at hu
      injection hu with hh
      exact ⟨hd, hh.symm⟩
  · rw [if_neg hv] at hu
    cases hs : t.header.update 70 (.int t.entries.length) with
    | none =>
      rw [hs] at hu
      exact absurd hu (by simp)
    | some hd =>
      rw [hs] at hu
      injection hu with hh
      exact ⟨hd, hh.symm⟩

theorem update_meta_data_count (t t' : TableState) (hu : update_meta_data t = some t') :
    if strGt t.dxfversion "AC1009" = true then
      ∃ body, t'.header.subclasses.find? (·.1 = "AcDbSymbolTable")
                = some ("AcDbSymbolTable", body) ∧
              body.find? (·.code = 70) = some ⟨70, .int t.entries.length⟩
    else
      t'.header.common.find? (·.code = 70) = some ⟨70, .int t.entries.length⟩ := by
  unfold update_meta_data at hu
  by_cases hv : strGt t.dxfversion "AC1009" = true
  · rw [if_pos hv] at hu
    rw [if_pos hv]
    cases hs : t.header.subclassUpdate "AcDbSymbolTable" 70 (.int t.entries.length) with
    | none =>
      rw [hs] at hu
      exact absurd hu (by simp)
    | some hd =>
      rw [hs] at hu
      injection hu with hh
      subst hh
      exact subclassUpdate_find t.header hd "AcDbSymbolTable" 70 _ hs
  · rw [if_neg hv] at hu
    rw [if_neg hv]
    cases hs : t.header.update 70 (.int t.entries.length) with
    | none =>
      rw [hs] at hu
      exact absurd hu (by simp)
    | some hd =>
      rw [hs] at hu
      injection hu with hh
      subst hh
      unfold XTags.update at hs
      cases hc : tagsUpdate 70 (.int t.entries.length) t.header.common with
      | none =>
        rw [hc] at hs
        exact absurd hs (by simp)
      | some c =>
        rw [hc] at hs
        injection hs with hss
        subst hss
        exact tagsUpdate_find _ _ _ _ hc

theorem gatherMemberTags_eq (db : EntityDB) (hs : List Nat)
    (hLive : ∀ h ∈ hs, (dbGet db h).isSome) :
    gatherMemberTags db hs =
      some (hs.map fun h => ((dbGet db h).getD ⟨[], []⟩).flatten).flatten := by
  induction hs with
  | nil => rfl
  | cons h rest ih =>
    obtain ⟨x, hx⟩ := Option.isSome_iff_exists.mp (hLive h (List.mem_cons_self _ _))
    rw [show gatherMemberTags db (h :: rest) =
          (match dbGet db h with
           | none => none
           | some x => (gatherMemberTags db rest).map (x.flatten ++ ·)) from rfl,
        hx, ih (fun h' hm => hLive h' (List.mem_cons_of_mem _ hm))]
    simp [hx]

theorem write_some_elim (t t' : TableState) (out : List DXFTag)
    (hw : Table.write t = some (out, t')) :
    update_meta_data t = some t' ∧
      ∃ body, gatherMemberTags t'.db t'.entries = some body ∧
        out = ⟨0, .str "TABLE"⟩ :: (t'.header.flatten ++ body ++ [⟨0, .str "ENDTAB"⟩]) := by
  unfold Table.write at hw
  cases hu : update_meta_data t with
  | none =>
    rw [hu] at hw
    exact absurd hw (by simp)
  | some s =>
    rw [hu] at hw
    dsimp only at hw
    cases hb : gatherMemberTags s.db s.entries with
    | none =>
      rw [hb] at hw
      exact absurd hw (by simp)
    | some body =>
      rw [hb] at hw
      simp only [Option.map_some', Option.some.injEq, Prod.mk.injEq] at hw
      obtain ⟨hout, hst⟩ := hw
      subst hst
      exact ⟨rfl, body, hb, hout.symm⟩

/-! ## Claim theorems -/

/-- C1: on a standard `Table`, member names stay unique across `create`
calls — when a member named `name` already exists, `create(name, attribs)`
fails with the duplicate-name error and leaves the attributes mapping and
the whole table state (member list, entity database, header) unchanged; and
every successful `create` preserves distinctness of the live members'
names. -/
theorem C1_create_duplicate_rejected (t : TableState) (name : String)
    (a : AttribDict) (hInv : TableInv t) :
    (memberExists t name = true →
       create t name a = (.error .DuplicateNameError, a, t)) ∧
    ((memberNames t).Nodup →
       ∀ e a' t', create t name a = (.ok e, a', t') → (memberNames t').Nodup) := by
  obtain ⟨hLive, hNodup, hBound⟩ := hInv
  refine ⟨fun hyes => create_dup_eq t name a hLive hyes, ?_⟩
  intro hnames e a' t' hc
  cases hex : memberExists t name with
  | true =>
    rw [create_dup_eq t name a hLive hex] at hc
    exact absurd (congrArg (fun p => p.1) hc) (by simp)
  | false =>
    rw [create_success_eq t name a hLive hex] at hc
    have ht' : t' = { t with nextHandle := t.nextHandle + 1
                             db := dbSet t.db t.nextHandle
                                     (new_entity t.dxfname t.nextHandle
                                       (dictSet a "name" name)).xtags
                             entries := t.entries ++ [t.nextHandle] } :=
      (congrArg (fun p => p.2.2) hc).symm
    subst ht'
    rw [memberNames_add_fresh t _ hBound, new_entity_name,
        dictGet_dictSet a "name" name, Option.getD_some]
    rw [List.nodup_append]
    refine ⟨hnames, List.nodup_singleton _, ?_⟩
    intro b hb hbmem
    obtain rfl := List.mem_singleton.mp hbmem
    have hmem : memberExists t b = true := (memberExists_iff t b).mpr hb
    rw [hex] at hmem
    exact Bool.false_ne_true hmem

/-- C1 witness: the sample table already holds a member named `0`. -/
theorem C1_witness :
    (memberExists sampleT "0" = true →
       create sampleT "0" [] = (.error .DuplicateNameError, [], sampleT)) ∧
    ((memberNames sampleT).Nodup →
       ∀ e a' t', create sampleT "0" [] = (.ok e, a', t') → (memberNames t').Nodup) :=
  C1_create_duplicate_rejected sampleT "0" [] (by decide)

/-- C2: whenever `write` succeeds, the header it emits carries the
entry-count field (group code 70) equal to the current member count,
whatever the header stored before — at top level of the header for
versions not above `AC1009`, inside the `AcDbSymbolTable` subclass for
later versions. -/
theorem C2_write_patches_count (t t' : TableState) (out : List DXFTag)
    (hw : Table.write t = some (out, t')) :
    if strGt t.dxfversion "AC1009" = true then
      ∃ body, t'.header.subclasses.find? (·.1 = "AcDbSymbolTable")
                = some ("AcDbSymbolTable", body) ∧
              body.find? (·.code = 70) = some ⟨70, .int (Table.count t)⟩
    else
      t'.header.common.find? (·.code = 70) = some ⟨70, .int (Table.count t)⟩ :=
  update_meta_data_count t t' (write_some_elim t t' out hw).1

/-- C2 witness: the modern sample table stores a stale count 99; `write`
emits count 0 inside the `AcDbSymbolTable` subclass. -/
theorem C2_witness :
    if strGt modernT.dxfversion "AC1009" = true then
      ∃ body, modernTW.header.subclasses.find? (·.1 = "AcDbSymbolTable")
                = some ("AcDbSymbolTable", body) ∧
              body.find? (·.code = 70) = some ⟨70, .int (Table.count modernT)⟩
    else
      modernTW.header.common.find? (·.code = 70)
        = some ⟨70, .int (Table.count modernT)⟩ :=
  C2_write_patches_count modernT modernTW modernOut (by decide)

/-- C3: a successful `write` emits exactly the opening `TABLE` marker, the
header record's tags, each member's stored tag record in member order, and
the closing `ENDTAB` marker — nothing else; the member list and database
are untouched. -/
theorem C3_write_sequence (t t' : TableState) (out : List DXFTag)
    (hLive : allLive t) (hw : Table.write t = some (out, t')) :
    out = ⟨0, .str "TABLE"⟩ ::
            (t'.header.flatten ++
             (t.entries.map fun h => ((dbGet t.db h).getD ⟨[], []⟩).flatten).flatten ++
             [⟨0, .str "ENDTAB"⟩]) ∧
    t'.entries = t.entries ∧ t'.db = t.db := by
  obtain ⟨hu, body, hb, hout⟩ := write_some_elim t t' out hw
  obtain ⟨hd, ht'⟩ := update_meta_data_shape t t' hu
  subst ht'
  dsimp only at hb ⊢
  rw [gatherMemberTags_eq t.db t.entries hLive] at hb
  injection hb with hbody
  subst hbody
  exact ⟨hout, rfl, rfl⟩

/-- C3 witness: `write` on the legacy sample table. -/
theorem C3_witness :
    sampleOut = ⟨0, .str "TABLE"⟩ ::
            (sampleTW.header.flatten ++
             (sampleT.entries.map fun h =>
               ((dbGet sampleT.db h).getD ⟨[], []⟩).flatten).flatten ++
             [⟨0, .str "ENDTAB"⟩]) ∧
    sampleTW.entries = sampleT.entries ∧ sampleTW.db = sampleT.db :=
  C3_write_sequence sampleT sampleTW sampleOut (by decide) (by decide)

/-- C4 counterexample to the claim as stated: a one-tag input whose only
group is named `ENDTAB` (so its first group is not named `TABLE`) makes
construction fail with an index error on reading the table name from the
second tag — not with the structure error the claim requires. -/
theorem C4_counterexample :
    groupName ((tagGroups [⟨0, .str "ENDTAB"⟩]).headD []) ≠ "TABLE" ∧
    buildTable "AC1009" [] 0 [⟨0, .str "ENDTAB"⟩] = .error .IndexError ∧
    buildTable "AC1009" [] 0 [⟨0, .str "ENDTAB"⟩] ≠ .error .StructureError := by
  refine ⟨by decide, by decide, by decide⟩

/-- C4 (amended): when the input has at least two tags and groups to a
nonempty group list, construction fails with the structure error whenever
the first group is not named `TABLE` or the last group is not named
`ENDTAB`; the error propagates and no table is built. -/
theorem C4_structure_error (v : String) (db0 : EntityDB) (nh : Nat)
    (tags g0 : List DXFTag) (gs : List (List DXFTag))
    (hlen : 2 ≤ tags.length) (hg : tagGroups tags = g0 :: gs)
    (hbad : groupName g0 ≠ "TABLE" ∨ groupName ((g0 :: gs).getLastD []) ≠ "ENDTAB") :
    buildTable v db0 nh tags = .error .StructureError := by
  obtain ⟨t1, ht1⟩ : ∃ t1, tags.get? 1 = some t1 := by
    cases tags with
    | nil => simp at hlen
    | cons a rest =>
      cases rest with
      | nil => simp at hlen
      | cons b rest2 => exact ⟨b, rfl⟩
  unfold buildTable
  rw [ht1]
  dsimp only
  rw [hg]
  dsimp only [List.head?]
  rw [if_neg]
  rintro ⟨h1, h2⟩
  rcases hbad with hb | hb
  · exact hb h1
  · exact hb h2

/-- C4 witness for the amended claim: opening group `TABLE`, closing
group `FOO`. -/
theorem C4_witness : buildTable "AC1009" [] 0 badStream = .error .StructureError :=
  C4_structure_error "AC1009" [] 0 badStream
    [⟨0, .str "TABLE"⟩, ⟨2, .str "LAYER"⟩] [[⟨0, .str "FOO"⟩]]
    (by decide) (by decide) (Or.inr (by decide))

/-- C5: `get` scans the members in insertion order and returns the first
entry whose logical name matches: a successful lookup splits the member
list around the returned entry's handle with no earlier member named
`name`; and when no live member is named `name`, it fails with the
not-found error. -/
theorem C5_get_first_match (t : TableState) (name : String) (hLive : allLive t) :
    (∀ e, get_entry t name = .ok e →
       ∃ pre post, t.entries = pre ++ e.handle :: post ∧
         dbGet t.db e.handle = some e.xtags ∧ Entity.name e = name ∧
         ∀ h ∈ pre, ∀ x, dbGet t.db h = some x → xtagsName x ≠ name) ∧
    (memberExists t name = false → get_entry t name = .error .NotFoundError) := by
  constructor
  · intro e hok
    obtain ⟨pre, post, hsplit, hget, hname, hpre⟩ :=
      getEntryFrom_ok_spec t.db name t.entries e hok
    refine ⟨pre, post, hsplit, hget, hname, ?_⟩
    intro h hm x hx
    obtain ⟨x', hx', hnm⟩ := hpre h hm
    rw [hx] at hx'
    injection hx' with hh
    subst hh
    exact hnm
  · intro hno
    exact getEntryFrom_of_not_any t.db name t.entries hLive hno

/-- C5 witness: lookup on the sample table. -/
theorem C5_witness :
    (∀ e, get_entry sampleT "0" = .ok e →
       ∃ pre post, sampleT.entries = pre ++ e.handle :: post ∧
         dbGet sampleT.db e.handle = some e.xtags ∧ Entity.name e = "0" ∧
         ∀ h ∈ pre, ∀ x, dbGet sampleT.db h = some x → xtagsName x ≠ "0") ∧
    (memberExists sampleT "0" = false →
       get_entry sampleT "0" = .error .NotFoundError) :=
  C5_get_first_match sampleT "0" (by decide)

theorem entry_exists_false_of (t : TableState) (name : String)
    (hLive : allLive t) (hno : memberExists t name = false) :
    entry_exists t name = .ok false := by
  rw [entry_exists_eq t name hLive, hno]

/-- C6: on the relaxed-uniqueness `ViewportTable` variant, `create` performs
no duplicate-name check: for every table state — members named `name`
present or not — it succeeds, appends exactly one new member (so `count()`
grows by exactly 1), and the new entry carries the requested name. -/
theorem C6_viewport_create_always (t : TableState) (name : String) (a : AttribDict) :
    Table.count (viewport_create t name a).2.2 = Table.count t + 1 ∧
    (viewport_create t name a).2.2.entries = t.entries ++ [t.nextHandle] ∧
    Entity.name (viewport_create t name a).1 = name := by
  refine ⟨?_, rfl, ?_⟩
  · show (t.entries ++ [t.nextHandle]).length = t.entries.length + 1
    simp
  · show xtagsName (new_entity t.dxfname t.nextHandle (dictSet a "name" name)).xtags = name
    rw [new_entity_name, dictGet_dictSet, Option.getD_some]

/-- C7: a successful `create(name)` followed immediately by `remove(name)`
restores `count()` to its prior value and leaves no member named `name`
(`contains(name)` is false). -/
theorem C7_create_remove_roundtrip (t : TableState) (name : String) (a : AttribDict)
    (hInv : TableInv t) (e : Entity) (a' : AttribDict) (t1 : TableState)
    (hc : create t name a = (.ok e, a', t1)) :
    ∃ t2, remove_entry t1 name = (.ok (), t2) ∧
      Table.count t2 = Table.count t ∧
      entry_exists t2 name = .ok false := by
  obtain ⟨hLive, hNodup, hBound⟩ := hInv
  have hno : memberExists t name = false := by
    cases hb : memberExists t name with
    | false => rfl
    | true =>
      rw [create_dup_eq t name a hLive hb] at hc
      exact absurd (congrArg (fun p => p.1) hc) (by simp)
  rw [create_success_eq t name a hLive hno] at hc
  have ht1 : t1 = { t with nextHandle := t.nextHandle + 1
                           db := dbSet t.db t.nextHandle
                                   (new_entity t.dxfname t.nextHandle
                                     (dictSet a "name" name)).xtags
                           entries := t.entries ++ [t.nextHandle] } :=
    (congrArg (fun p => p.2.2) hc).symm
  subst ht1
  set xt := (new_entity t.dxfname t.nextHandle (dictSet a "name" name)).xtags with hxt
  have hxname : xtagsName xt = name := by
    rw [hxt, new_entity_name, dictGet_dictSet, Option.getD_some]
  have hnotmem : t.nextHandle ∉ t.entries := fun hm => absurd (hBound _ hm) (lt_irrefl _)
  have hdb1 : ∀ h ∈ t.entries, dbGet (dbSet t.db t.nextHandle xt) h = dbGet t.db h :=
    fun h hm => dbGet_dbSet_ne _ _ _ _ (fun hh => absurd (hh ▸ hBound h hm) (lt_irrefl _))
  have hlive1 : ∀ h ∈ t.entries, (dbGet (dbSet t.db t.nextHandle xt) h).isSome := by
    intro h hm
    rw [hdb1 h hm]
    exact hLive h hm
  have hnofalse : ∀ h ∈ t.entries, ¬ liveNameIs t.db name h = true :=
    List.any_eq_false.mp hno
  have hany1 : t.entries.any (liveNameIs (dbSet t.db t.nextHandle xt) name) = false := by
    rw [List.any_eq_false]
    intro h hm
    have heq : liveNameIs (dbSet t.db t.nextHandle xt) name h = liveNameIs t.db name h := by
      unfold liveNameIs
      rw [hdb1 h hm]
    rw [heq]
    exact hnofalse h hm
  have hget1 : getEntryFrom (dbSet t.db t.nextHandle xt) name (t.entries ++ [t.nextHandle])
      = .ok ⟨t.nextHandle, xt⟩ := by
    rw [getEntryFrom_append_skip _ _ _ _ hlive1 hany1, getEntryFrom_cons, dbGet_dbSet_self]
    simp [hxname]
  have hgete : get_entry { t with nextHandle := t.nextHandle + 1
                                  db := dbSet t.db t.nextHandle xt
                                  entries := t.entries ++ [t.nextHandle] } name
      = .ok ⟨t.nextHandle, xt⟩ := hget1
  have herase : (t.entries ++ [t.nextHandle]).erase t.nextHandle = t.entries := by
    rw [List.erase_append_right _ hnotmem, List.erase_cons_head, List.append_nil]
  have hdb2 : ∀ h ∈ t.entries,
      dbGet (dbDel (dbSet t.db t.nextHandle xt) t.nextHandle) h = dbGet t.db h := by
    intro h hm
    rw [dbGet_dbDel_ne _ _ _ (fun hh => absurd (hh ▸ hBound h hm) (lt_irrefl _))]
    exact hdb1 h hm
  refine ⟨{ t with nextHandle := t.nextHandle + 1
                   db := dbDel (dbSet t.db t.nextHandle xt) t.nextHandle
                   entries := t.entries },
          ?_, rfl, ?_⟩
  · rw [remove_entry_ok_eq _ name ⟨t.nextHandle, xt⟩ hgete]
    dsimp only
    rw [herase]
  · apply entry_exists_false_of
    · intro h hm
      show (dbGet (dbDel (dbSet t.db t.nextHandle xt) t.nextHandle) h).isSome
      rw [hdb2 h hm]
      exact hLive h hm
    · show t.entries.any (liveNameIs (dbDel (dbSet t.db t.nextHandle xt) t.nextHandle) name)
        = false
      rw [List.any_eq_false]
      intro h hm
      have heq : liveNameIs (dbDel (dbSet t.db t.nextHandle xt) t.nextHandle) name h
          = liveNameIs t.db name h := by
        unfold liveNameIs
        rw [hdb2 h hm]
      rw [heq]
      exact hnofalse h hm

/-- C7 witness: create a member named `1` on the sample table, then remove
it: the count returns to 1 and `contains("1")` is false. -/
theorem C7_witness :
    ∃ t2, remove_entry sampleT1 "1" = (.ok (), t2) ∧
      Table.count t2 = Table.count sampleT ∧
      entry_exists t2 "1" = .ok false :=
  C7_create_remove_roundtrip sampleT "1" [] (by decide)
    ⟨11, layer1⟩ [("name", "1")] sampleT1 (by decide)

/-- C8: the database-consistency invariant — every member handle has a live
record in the entity database (together with handle distinctness and
allocator-monotonicity, which the bookkeeping maintains) — is established
by construction from tags and preserved by `new_entry`, successful `create`
and successful `remove`; and the handle `remove` drops from the member list
is deleted from the entity database in the same operation. -/
theorem C8_database_consistency :
    (∀ v db0 nh tags t, buildTable v db0 nh tags = .ok t → TableInv t) ∧
    (∀ t a, TableInv t → TableInv (new_entry t a).2) ∧
    (∀ t name a e a' t', TableInv t →
       create t name a = (.ok e, a', t') → TableInv t') ∧
    (∀ t name t', TableInv t → remove_entry t name = (.ok (), t') →
       TableInv t' ∧ ∀ e, get_entry t name = .ok e → dbGet t'.db e.handle = none) := by
  refine ⟨TableInv_build, ?_, ?_, TableInv_remove⟩
  · intro t a hInv
    exact TableInv_add_fresh t _ hInv
  · intro t name a e a' t' hInv hc
    have hno : memberExists t name = false := by
      cases hb : memberExists t name with
      | false => rfl
      | true =>
        rw [create_dup_eq t name a hInv.1 hb] at hc
        exact absurd (congrArg (fun p => p.1) hc) (by simp)
    rw [create_success_eq t name a hInv.1 hno] at hc
    have ht' : t' = { t with nextHandle := t.nextHandle + 1
                             db := dbSet t.db t.nextHandle
                                     (new_entity t.dxfname t.nextHandle
                                       (dictSet a "name" name)).xtags
                             entries := t.entries ++ [t.nextHandle] } :=
      (congrArg (fun p => p.2.2) hc).symm
    rw [ht']
    exact TableInv_add_fresh t _ hInv

/-- C8 witness: the invariant holds for the table built from the sample
stream. -/
theorem C8_witness : TableInv sampleT :=
  C8_database_consistency.1 "AC1009" [] 10 sampleStream sampleT (by decide)

/-- C9: removal by name on a table that may hold several members with the
same logical name deletes exactly the first matching member in insertion
order: the member list loses exactly that one handle (`count()` drops by
1), no earlier member matches the name, and every later member — including
later same-named members — keeps its database record. -/
theorem C9_remove_first_match (t : TableState) (name : String) (e : Entity)
    (hInv : TableInv t) (hget : get_entry t name = .ok e) :
    ∃ pre post t',
      t.entries = pre ++ e.handle :: post ∧
      (∀ h ∈ pre, ∀ x, dbGet t.db h = some x → xtagsName x ≠ name) ∧
      remove_entry t name = (.ok (), t') ∧
      t'.entries = pre ++ post ∧
      Table.count t' + 1 = Table.count t ∧
      (∀ h ∈ post, dbGet t'.db h = dbGet t.db h) := by
  obtain ⟨hLive, hNodup, hBound⟩ := hInv
  obtain ⟨pre, post, hsplit, hget2, hname, hpre⟩ :=
    getEntryFrom_ok_spec t.db name t.entries e hget
  have hNodup2 : (pre ++ e.handle :: post).Nodup := hsplit ▸ hNodup
  rw [List.nodup_append] at hNodup2
  have hnotpre : e.handle ∉ pre :=
    fun hmem => hNodup2.2.2 hmem (List.mem_cons_self _ _)
  have hnotpost : e.handle ∉ post := (List.nodup_cons.mp hNodup2.2.1).1
  have herase : t.entries.erase e.handle = pre ++ post := by
    rw [hsplit, List.erase_append_right _ hnotpre, List.erase_cons_head]
  refine ⟨pre, post, _, hsplit, ?_, remove_entry_ok_eq t name e hget, ?_, ?_, ?_⟩
  · intro h hm x hx
    obtain ⟨x', hx', hnm⟩ := hpre h hm
    rw [hx] at hx'
    injection hx' with hh
    subst hh
    exact hnm
  · exact herase
  · show (t.entries.erase e.handle).length + 1 = t.entries.length
    rw [herase, hsplit]
    simp [List.length_append]
    omega
  · intro h hm
    show dbGet (dbDel t.db e.handle) h = dbGet t.db h
    exact dbGet_dbDel_ne _ _ _ (fun hh => hnotpost (hh ▸ hm))

/-- C9 witness: the duplicate-name table holds two members named `0`;
removal hits the first. -/
theorem C9_witness :
    ∃ pre post t',
      dupT.entries = pre ++ (⟨10, layer0⟩ : Entity).handle :: post ∧
      (∀ h ∈ pre, ∀ x, dbGet dupT.db h = some x → xtagsName x ≠ "0") ∧
      remove_entry dupT "0" = (.ok (), t') ∧
      t'.entries = pre ++ post ∧
      Table.count t' + 1 = Table.count dupT ∧
      (∀ h ∈ post, dbGet t'.db h = dbGet dupT.db h) :=
  C9_remove_first_match dupT "0" ⟨10, layer0⟩ (by decide) (by decide)

/-- C10: `create` treats the caller's attributes mapping as writable —
both the standard `Table.create` (on success) and `ViewportTable.create`
hand the caller back their mapping with its `name` entry set to the
requested name, overwriting any previous `name` value. -/
theorem C10_create_mutates_attribs (t : TableState) (name : String) (a : AttribDict) :
    (viewport_create t name a).2.1 = dictSet a "name" name ∧
    (∀ e a' t', create t name a = (.ok e, a', t') → a' = dictSet a "name" name) ∧
    dictGet (dictSet a "name" name) "name" = some name := by
  refine ⟨rfl, ?_, dictGet_dictSet a "name" name⟩
  intro e a' t' hc
  unfold create at hc
  cases hee : entry_exists t name with
  | error err =>
    rw [hee] at hc
    dsimp only at hc
    exact absurd (congrArg (fun p => p.1) hc) (by simp)
  | ok b =>
    rw [hee] at hc
    cases b with
    | true =>
      dsimp only at hc
      exact absurd (congrArg (fun p => p.1) hc) (by simp)
    | false =>
      dsimp only at hc
      exact (congrArg (fun p => p.2.1) hc).symm

/-- C10 witness: a mapping whose `name` entry previously read `OLD` comes
back with `name` set to `X`. -/
theorem C10_witness :
    (viewport_create dupT "X" [("name", "OLD")]).2.1
      = dictSet [("name", "OLD")] "name" "X" :=
  (C10_create_mutates_attribs dupT "X" [("name", "OLD")]).1

end EzDxf
